import Mathlib

/-!
Shallow embedding of the harmonics-explorer state core
(`src/app/harmonics.ts`): a reducer over an immutable application state
holding a fundamental frequency, thirteen harmonic partials with sampled
sine curves, and a combined total curve.

Real-valued samples are modelled as rationals.  The floating-point sine
kernel `x ↦ Math.sin(2 * Math.PI * x)` used by the waveform sampler is
abstracted as a parameter `sin2pi : ℚ → ℚ`; every definition and theorem
below is parametric in it, since none of the verified properties depend
on actual sine values.
-/

set_option maxRecDepth 10000

namespace Harmonics

/-- One sampled curve: an ordered sequence of rational samples. -/
abbrev Curve := List ℚ

/-- `HARMONICS_COUNT = 13`: how many harmonic partials to include. -/
def HARMONICS_COUNT : ℕ := 13

/-- `SAMPLE_COUNT = 650`: how many samples to visualize in each curve. -/
def SAMPLE_COUNT : ℕ := 650

/-- `SAMPLE_RATE = 44100`: the sample rate frequency used for visualization. -/
def SAMPLE_RATE : ℚ := 44100

/-- A partial record (the `PartialRecord` of `partial.ts`): one harmonic
component with its frequency, amplitude and sampled curve. -/
structure PartialRec where
  frequency : ℚ
  amplitude : ℚ
  data : Curve
deriving DecidableEq, Repr

/-- The application state record (the `AppStateRecord` of `app-state.ts`). -/
structure AppState where
  playing : Bool
  masterGain : ℚ
  fundamentalFrequency : ℚ
  partials : List PartialRec
  totalCurve : Curve
deriving DecidableEq, Repr

/-- The actions dispatched to `harmonicsReducer`.  The reducer never
inspects the preset name of `SWITCH_TO_PRESET` nor the type tag of an
unrecognized action, so those string payloads are modelled as opaque
natural-number codes. -/
inductive Action where
  | start : Action
  | stop : Action
  | changeAmplitude (partialNumber : ℤ) (amplitude : ℚ) : Action
  | changeMasterGain (gain : ℚ) : Action
  | changeFundamentalFrequency (frequency : ℚ) : Action
  | switchToPreset (preset : ℕ) : Action
  | unknown (tag : ℕ) : Action
deriving DecidableEq, Repr

/-- Immutable.js `List.map((x, index) => …)` restricted to partial lists:
map with the 0-based element index passed to the function, starting the
count at `n`. -/
def mapIdxFrom (f : ℕ → PartialRec → PartialRec) : ℕ → List PartialRec → List PartialRec
  | _, [] => []
  | n, p :: ps => f n p :: mapIdxFrom f (n + 1) ps

/-- Modelled from the spec: `calculateSineCurve` lives in the missing
`curves.ts`; per spec 4.1 the sampler returns `sampleCount` samples with
sample `i = amplitude * sin(2π * frequency * i / sampleRate)`, rendered
here through the abstract kernel `sin2pi`. -/
def calculateSineCurve (sin2pi : ℚ → ℚ) (frequency amplitude : ℚ)
    (sampleCount : ℕ) (sampleRate : ℚ) : Curve :=
  (List.range sampleCount).map fun i => amplitude * sin2pi (frequency * i / sampleRate)

/-- Modelled from the spec: `combineCurves` lives in the missing
`curves.ts`; per spec 4.2 the result has the common length of the input
curves (empty when there are none) and `result[i] = gain * Σ_j curves[j][i]`. -/
def combineCurves (curves : List Curve) (gain : ℚ) : Curve :=
  match curves with
  | [] => []
  | c :: _ => (List.range c.length).map fun i => gain * (curves.map fun cu => cu.getD i 0).sum

/-- `updateCurve`: recompute the sine curve for a partial. -/
def updateCurve (sin2pi : ℚ → ℚ) (p : PartialRec) : PartialRec :=
  { p with data := calculateSineCurve sin2pi p.frequency p.amplitude SAMPLE_COUNT SAMPLE_RATE }

/-- `updateTotalCurve`: recompute the combination of all partial curves.
It only re-sums existing partial data, so it does not use the sine kernel. -/
def updateTotalCurve (state : AppState) : AppState :=
  { state with
      totalCurve := combineCurves (state.partials.map fun p => p.data) state.masterGain }

/-- `makePartial`: the initial partial for harmonic number `partialNumber`
(1-based).  The missing `partialFactory` default for `data` is modelled as
the empty curve; `makeInitialState` overwrites it via `updateCurve` before
the record is ever read. -/
def makePartial (fundamentalFrequency : ℚ) (partialNumber : ℕ) : PartialRec :=
  { frequency := fundamentalFrequency * (partialNumber : ℚ)
    amplitude := if partialNumber = 1 then 1 else 0
    data := [] }

/-- `makeInitialState`: the bootstrap state.  `Range(1, HARMONICS_COUNT+1)`
is rendered as `List.range HARMONICS_COUNT` with harmonic number `i + 1`;
the missing `appStateFactory` default for `totalCurve` is modelled as the
empty curve, overwritten by `updateTotalCurve` before it is ever read. -/
def makeInitialState (sin2pi : ℚ → ℚ) : AppState :=
  let fundamentalFrequency : ℚ := 26163 / 100
  let partials := (List.range HARMONICS_COUNT).map fun i =>
    updateCurve sin2pi (makePartial fundamentalFrequency (i + 1))
  updateTotalCurve
    { playing := false
      masterGain := 1 / 2
      fundamentalFrequency := fundamentalFrequency
      partials := partials
      totalCurve := [] }

/-- `setPlayState`: start (unmute) / stop (mute). -/
def setPlayState (state : AppState) (playing : Bool) : AppState :=
  { state with playing := playing }

/-- `changeAmplitudeForPartial`: adjust the amplitude for a particular
partial and recompute its sine curve. -/
def changeAmplitudeForPartial (sin2pi : ℚ → ℚ) (p : PartialRec) (amplitude : ℚ) : PartialRec :=
  updateCurve sin2pi { p with amplitude := amplitude }

/-- Modelled from the spec: the error taxonomy of spec 7 for the core; the
sources outside `harmonics.ts` define no error type, and the edge-case
policy makes an out-of-range partial index a reported `IndexOutOfRange`. -/
inductive ReduceError where
  | IndexOutOfRange : ReduceError
deriving DecidableEq, Repr

/-- `changeAmplitude`.  The in-range branch follows the source:
`updateIn(['partials', partialNumber], p => changeAmplitudeForPartial(p,
amplitude))` followed by `updateTotalCurve`.  The guard is Modelled from
the spec: the edge-case policy reports `partialNumber` outside
`[0, HARMONICS_COUNT)` as an `IndexOutOfRange` error. -/
def changeAmplitude (sin2pi : ℚ → ℚ) (state : AppState) (partialNumber : ℤ)
    (amplitude : ℚ) : Except ReduceError AppState :=
  if 0 ≤ partialNumber ∧ partialNumber < (HARMONICS_COUNT : ℤ) then
    .ok (updateTotalCurve
      { state with
          partials := mapIdxFrom
            (fun i p =>
              if (i : ℤ) = partialNumber then changeAmplitudeForPartial sin2pi p amplitude
              else p)
            0 state.partials })
  else
    .error .IndexOutOfRange

/-- `setPartialFrequencies`: recalculate the frequency of every partial
from the new fundamental and update the curves accordingly. -/
def setPartialFrequencies (sin2pi : ℚ → ℚ) (partials : List PartialRec)
    (fundamentalFrequency : ℚ) : List PartialRec :=
  mapIdxFrom
    (fun index p =>
      updateCurve sin2pi { p with frequency := fundamentalFrequency * ((index : ℚ) + 1) })
    0 partials

/-- `changeFundamentalFrequency`: set the fundamental and retune all
partials, then recompute the total curve. -/
def changeFundamentalFrequency (sin2pi : ℚ → ℚ) (state : AppState)
    (fundamentalFrequency : ℚ) : AppState :=
  updateTotalCurve
    { state with
        fundamentalFrequency := fundamentalFrequency
        partials := setPartialFrequencies sin2pi state.partials fundamentalFrequency }

/-- `changeMasterGain`: set the master gain and recompute the total curve;
no partial is resampled, so the sine kernel is not needed. -/
def changeMasterGain (state : AppState) (masterGain : ℚ) : AppState :=
  updateTotalCurve { state with masterGain := masterGain }

/-- `harmonicsReducer`: the single dispatch entry point.  The in-range
branches mirror the source switch; `changeAmplitude` threads the
spec-modelled `IndexOutOfRange` error, every other branch always succeeds. -/
def harmonicsReducer (sin2pi : ℚ → ℚ) (state : AppState) :
    Action → Except ReduceError AppState
  | .start => .ok (setPlayState state true)
  | .stop => .ok (setPlayState state false)
  | .changeAmplitude k a => changeAmplitude sin2pi state k a
  | .changeMasterGain g => .ok (changeMasterGain state g)
  | .changeFundamentalFrequency f => .ok (changeFundamentalFrequency sin2pi state f)
  | _ => .ok state

/-- States reachable from `makeInitialState` by successful reductions. -/
inductive Reachable (sin2pi : ℚ → ℚ) : AppState → Prop where
  | init : Reachable sin2pi (makeInitialState sin2pi)
  | step {s t : AppState} (a : Action) :
      Reachable sin2pi s → harmonicsReducer sin2pi s a = .ok t → Reachable sin2pi t

/-- The per-partial consistency condition at 0-based index `i`:
the frequency is the (i+1)-st multiple of the fundamental and the curve is
the exact resampling of the current parameters. -/
def PartialConsistent (sin2pi : ℚ → ℚ) (fundamentalFrequency : ℚ) (i : ℕ)
    (p : PartialRec) : Prop :=
  p.frequency = fundamentalFrequency * ((i : ℚ) + 1) ∧
  p.data = calculateSineCurve sin2pi p.frequency p.amplitude SAMPLE_COUNT SAMPLE_RATE

/-- The state consistency invariant: every partial present at an index is
consistent and the total curve is the combination of all partial curves at
the current gain. -/
def StateConsistent (sin2pi : ℚ → ℚ) (s : AppState) : Prop :=
  (∀ i p, s.partials[i]? = some p →
    PartialConsistent sin2pi s.fundamentalFrequency i p) ∧
  s.totalCurve = combineCurves (s.partials.map fun p => p.data) s.masterGain

/-! ### Basic lemmas about the embedded operations -/

@[simp]
theorem mapIdxFrom_length (f : ℕ → PartialRec → PartialRec) (n : ℕ) (l : List PartialRec) :
    (mapIdxFrom f n l).length = l.length := by
  induction l generalizing n with
  | nil => rfl
  | cons p ps ih => simp [mapIdxFrom, ih]

theorem mapIdxFrom_getElem? (f : ℕ → PartialRec → PartialRec) (n : ℕ) (l : List PartialRec)
    (i : ℕ) : (mapIdxFrom f n l)[i]? = (l[i]?).map (f (n + i)) := by
  induction l generalizing n i with
  | nil => simp [mapIdxFrom]
  | cons p ps ih =>
    cases i with
    | zero => simp [mapIdxFrom]
    | succ j =>
      have h3 := ih (n + 1) j
      simp only [mapIdxFrom, List.getElem?_cons_succ, h3, Nat.add_succ, Nat.succ_add]

@[simp]
theorem updateCurve_frequency (sin2pi : ℚ → ℚ) (p : PartialRec) :
    (updateCurve sin2pi p).frequency = p.frequency := rfl

@[simp]
theorem updateCurve_amplitude (sin2pi : ℚ → ℚ) (p : PartialRec) :
    (updateCurve sin2pi p).amplitude = p.amplitude := rfl

@[simp]
theorem updateCurve_data (sin2pi : ℚ → ℚ) (p : PartialRec) :
    (updateCurve sin2pi p).data =
      calculateSineCurve sin2pi p.frequency p.amplitude SAMPLE_COUNT SAMPLE_RATE := rfl

@[simp]
theorem updateTotalCurve_playing (s : AppState) :
    (updateTotalCurve s).playing = s.playing := rfl

@[simp]
theorem updateTotalCurve_masterGain (s : AppState) :
    (updateTotalCurve s).masterGain = s.masterGain := rfl

@[simp]
theorem updateTotalCurve_fundamentalFrequency (s : AppState) :
    (updateTotalCurve s).fundamentalFrequency = s.fundamentalFrequency := rfl

@[simp]
theorem updateTotalCurve_partials (s : AppState) :
    (updateTotalCurve s).partials = s.partials := rfl

@[simp]
theorem updateTotalCurve_totalCurve (s : AppState) :
    (updateTotalCurve s).totalCurve =
      combineCurves (s.partials.map fun p => p.data) s.masterGain := rfl

@[simp]
theorem changeAmplitudeForPartial_frequency (sin2pi : ℚ → ℚ) (p : PartialRec) (a : ℚ) :
    (changeAmplitudeForPartial sin2pi p a).frequency = p.frequency := rfl

@[simp]
theorem changeAmplitudeForPartial_amplitude (sin2pi : ℚ → ℚ) (p : PartialRec) (a : ℚ) :
    (changeAmplitudeForPartial sin2pi p a).amplitude = a := rfl

@[simp]
theorem changeAmplitudeForPartial_data (sin2pi : ℚ → ℚ) (p : PartialRec) (a : ℚ) :
    (changeAmplitudeForPartial sin2pi p a).data =
      calculateSineCurve sin2pi p.frequency a SAMPLE_COUNT SAMPLE_RATE := rfl

/-! ### Preservation of the consistency invariant -/

theorem updateTotalCurve_consistent (sin2pi : ℚ → ℚ) (s : AppState)
    (h : ∀ i p, s.partials[i]? = some p →
      PartialConsistent sin2pi s.fundamentalFrequency i p) :
    StateConsistent sin2pi (updateTotalCurve s) :=
  ⟨h, rfl⟩

theorem makeInitialState_length (sin2pi : ℚ → ℚ) :
    (makeInitialState sin2pi).partials.length = HARMONICS_COUNT := by
  simp [makeInitialState]

theorem makeInitialState_getElem? (sin2pi : ℚ → ℚ) (i : ℕ) (hi : i < HARMONICS_COUNT) :
    (makeInitialState sin2pi).partials[i]? =
      some (updateCurve sin2pi (makePartial (26163 / 100) (i + 1))) := by
  show ((List.range HARMONICS_COUNT).map fun j =>
      updateCurve sin2pi (makePartial (26163 / 100) (j + 1)))[i]? = _
  simp [List.getElem?_map, List.getElem?_range, hi]

theorem makeInitialState_consistent (sin2pi : ℚ → ℚ) :
    StateConsistent sin2pi (makeInitialState sin2pi) := by
  refine ⟨?_, rfl⟩
  intro i p hp
  have hi : i < HARMONICS_COUNT := by
    have h1 := (List.getElem?_eq_some.mp hp).1
    rwa [makeInitialState_length] at h1
  rw [makeInitialState_getElem? sin2pi i hi, Option.some_inj] at hp
  subst hp
  constructor
  · show (updateCurve sin2pi (makePartial (26163 / 100) (i + 1))).frequency =
      (makeInitialState sin2pi).fundamentalFrequency * ((i : ℚ) + 1)
    have hff : (makeInitialState sin2pi).fundamentalFrequency = 26163 / 100 := rfl
    rw [hff]
    simp [makePartial]
  · simp

theorem setPlayState_consistent (sin2pi : ℚ → ℚ) (s : AppState) (b : Bool)
    (h : StateConsistent sin2pi s) : StateConsistent sin2pi (setPlayState s b) := h

theorem changeAmplitude_ok_consistent (sin2pi : ℚ → ℚ) (s t : AppState) (k : ℤ) (a : ℚ)
    (hok : changeAmplitude sin2pi s k a = .ok t) (h : StateConsistent sin2pi s) :
    StateConsistent sin2pi t := by
  unfold changeAmplitude at hok
  split at hok
  · simp only [Except.ok.injEq] at hok
    subst hok
    apply updateTotalCurve_consistent
    intro i p hp
    replace hp : (mapIdxFrom
        (fun i p => if (i : ℤ) = k then changeAmplitudeForPartial sin2pi p a else p)
        0 s.partials)[i]? = some p := hp
    rw [mapIdxFrom_getElem?] at hp
    obtain ⟨q, hq, hfq⟩ := Option.map_eq_some'.mp hp
    show PartialConsistent sin2pi s.fundamentalFrequency i p
    obtain ⟨h1, h2⟩ := h.1 i q hq
    by_cases hik : ((0 + i : ℕ) : ℤ) = k
    · rw [if_pos hik] at hfq
      subst hfq
      exact ⟨by simpa using h1, by simp⟩
    · rw [if_neg hik] at hfq
      subst hfq
      exact ⟨h1, h2⟩
  · exact absurd hok (by simp)

theorem changeFundamentalFrequency_consistent (sin2pi : ℚ → ℚ) (s : AppState) (f : ℚ) :
    StateConsistent sin2pi (changeFundamentalFrequency sin2pi s f) := by
  apply updateTotalCurve_consistent
  intro i p hp
  replace hp : (setPartialFrequencies sin2pi s.partials f)[i]? = some p := hp
  unfold setPartialFrequencies at hp
  rw [mapIdxFrom_getElem?] at hp
  obtain ⟨q, hq, hfq⟩ := Option.map_eq_some'.mp hp
  subst hfq
  show PartialConsistent sin2pi f i _
  refine ⟨?_, by simp⟩
  simp [Nat.zero_add]

theorem changeMasterGain_consistent (sin2pi : ℚ → ℚ) (s : AppState) (g : ℚ)
    (h : StateConsistent sin2pi s) : StateConsistent sin2pi (changeMasterGain s g) := by
  apply updateTotalCurve_consistent
  intro i p hp
  exact h.1 i p hp

theorem harmonicsReducer_ok_consistent (sin2pi : ℚ → ℚ) (s t : AppState) (a : Action)
    (hok : harmonicsReducer sin2pi s a = .ok t) (h : StateConsistent sin2pi s) :
    StateConsistent sin2pi t := by
  cases a with
  | start =>
    simp only [harmonicsReducer, Except.ok.injEq] at hok
    subst hok; exact setPlayState_consistent sin2pi s true h
  | stop =>
    simp only [harmonicsReducer, Except.ok.injEq] at hok
    subst hok; exact setPlayState_consistent sin2pi s false h
  | changeAmplitude k amp =>
    exact changeAmplitude_ok_consistent sin2pi s t k amp hok h
  | changeMasterGain g =>
    simp only [harmonicsReducer, Except.ok.injEq] at hok
    subst hok; exact changeMasterGain_consistent sin2pi s g h
  | changeFundamentalFrequency f =>
    simp only [harmonicsReducer, Except.ok.injEq] at hok
    subst hok; exact changeFundamentalFrequency_consistent sin2pi s f
  | switchToPreset preset =>
    simp only [harmonicsReducer, Except.ok.injEq] at hok
    subst hok; exact h
  | unknown tag =>
    simp only [harmonicsReducer, Except.ok.injEq] at hok
    subst hok; exact h

theorem changeAmplitude_ok_length (sin2pi : ℚ → ℚ) (s t : AppState) (k : ℤ) (a : ℚ)
    (hok : changeAmplitude sin2pi s k a = .ok t) :
    t.partials.length = s.partials.length := by
  unfold changeAmplitude at hok
  split at hok
  · simp only [Except.ok.injEq] at hok
    subst hok
    simp [mapIdxFrom_length]
  · exact absurd hok (by simp)

theorem harmonicsReducer_ok_length (sin2pi : ℚ → ℚ) (s t : AppState) (a : Action)
    (hok : harmonicsReducer sin2pi s a = .ok t) :
    t.partials.length = s.partials.length := by
  cases a with
  | changeAmplitude k amp => exact changeAmplitude_ok_length sin2pi s t k amp hok
  | changeFundamentalFrequency f =>
    simp only [harmonicsReducer, Except.ok.injEq] at hok
    subst hok
    simp [changeFundamentalFrequency, setPartialFrequencies, mapIdxFrom_length]
  | start =>
    simp only [harmonicsReducer, Except.ok.injEq] at hok; subst hok; rfl
  | stop =>
    simp only [harmonicsReducer, Except.ok.injEq] at hok; subst hok; rfl
  | changeMasterGain g =>
    simp only [harmonicsReducer, Except.ok.injEq] at hok; subst hok; rfl
  | switchToPreset preset =>
    simp only [harmonicsReducer, Except.ok.injEq] at hok; subst hok; rfl
  | unknown tag =>
    simp only [harmonicsReducer, Except.ok.injEq] at hok; subst hok; rfl

theorem reachable_consistent (sin2pi : ℚ → ℚ) (s : AppState) (h : Reachable sin2pi s) :
    StateConsistent sin2pi s := by
  induction h with
  | init => exact makeInitialState_consistent sin2pi
  | step a _ hok ih => exact harmonicsReducer_ok_consistent sin2pi _ _ a hok ih

theorem reachable_length (sin2pi : ℚ → ℚ) (s : AppState) (h : Reachable sin2pi s) :
    s.partials.length = HARMONICS_COUNT := by
  induction h with
  | init => exact makeInitialState_length sin2pi
  | step a _ hok ih =>
    rw [harmonicsReducer_ok_length sin2pi _ _ a hok]
    exact ih


/-! ### Witness instrumentation -/

/-- A trivial computable sine kernel used to instantiate witnesses. -/
def sinZ : ℚ → ℚ := fun _ => 0

/-- A small concrete state used to instantiate witnesses of
general-state theorems. -/
def probeState : AppState :=
  { playing := false
    masterGain := 1
    fundamentalFrequency := 2
    partials := List.replicate HARMONICS_COUNT { frequency := 2, amplitude := 0, data := [] }
    totalCurve := [] }

/-! ### The claims -/

/-- C1: in every state reachable from the initial state by successful
reductions (START, STOP, in-range CHANGE_AMPLITUDE, CHANGE_FUNDAMENTAL_FREQUENCY,
CHANGE_MASTER_GAIN, and unrecognized actions), every partial at index `i`
has frequency `fundamentalFrequency * (i+1)` and data equal to the sampler
applied to (frequency, amplitude, 650, 44100), and the total curve equals
the combiner applied to all partials' data and the master gain. -/
theorem C1_reachable_consistency (sin2pi : ℚ → ℚ) (s : AppState)
    (h : Reachable sin2pi s) :
    (∀ (i : ℕ) (p : PartialRec), s.partials[i]? = some p →
      p.frequency = s.fundamentalFrequency * ((i : ℚ) + 1) ∧
      p.data = calculateSineCurve sin2pi p.frequency p.amplitude 650 44100) ∧
    s.totalCurve = combineCurves (s.partials.map fun p => p.data) s.masterGain := by
  have hc := reachable_consistent sin2pi s h
  exact ⟨fun i p hp => hc.1 i p hp, hc.2⟩

/-- Witness for C1 at the initial state with the trivial kernel. -/
theorem C1_reachable_consistency_witness :
    (∀ (i : ℕ) (p : PartialRec), (makeInitialState sinZ).partials[i]? = some p →
      p.frequency = (makeInitialState sinZ).fundamentalFrequency * ((i : ℚ) + 1) ∧
      p.data = calculateSineCurve sinZ p.frequency p.amplitude 650 44100) ∧
    (makeInitialState sinZ).totalCurve =
      combineCurves ((makeInitialState sinZ).partials.map fun p => p.data)
        (makeInitialState sinZ).masterGain :=
  C1_reachable_consistency sinZ (makeInitialState sinZ) Reachable.init

/-- C2: `makeInitialState` yields `playing = false`, `masterGain = 0.5`,
`fundamentalFrequency = 261.63`, exactly 13 partials where partial `i` has
frequency `261.63 * (i+1)`, amplitude 1 at index 0 and 0 at indices 1–12,
data precomputed by the sampler, and the total curve precomputed by the
combiner. -/
theorem C2_makeInitialState (sin2pi : ℚ → ℚ) :
    (makeInitialState sin2pi).playing = false ∧
    (makeInitialState sin2pi).masterGain = 1 / 2 ∧
    (makeInitialState sin2pi).fundamentalFrequency = 26163 / 100 ∧
    (makeInitialState sin2pi).partials.length = 13 ∧
    (∀ i : ℕ, i < 13 →
      (makeInitialState sin2pi).partials[i]?.map PartialRec.frequency =
        some ((26163 / 100 : ℚ) * ((i : ℚ) + 1)) ∧
      (makeInitialState sin2pi).partials[i]?.map PartialRec.amplitude =
        some (if i = 0 then (1 : ℚ) else 0) ∧
      (makeInitialState sin2pi).partials[i]?.map PartialRec.data =
        some (calculateSineCurve sin2pi ((26163 / 100 : ℚ) * ((i : ℚ) + 1))
          (if i = 0 then (1 : ℚ) else 0) 650 44100)) ∧
    (makeInitialState sin2pi).totalCurve =
      combineCurves ((makeInitialState sin2pi).partials.map fun p => p.data)
        (makeInitialState sin2pi).masterGain := by
  refine ⟨rfl, rfl, rfl, makeInitialState_length sin2pi, ?_, rfl⟩
  intro i hi
  rw [makeInitialState_getElem? sin2pi i hi]
  have hfreq : (makePartial (26163 / 100) (i + 1)).frequency =
      (26163 / 100 : ℚ) * ((i : ℚ) + 1) := by
    simp [makePartial]
  have hamp : (makePartial (26163 / 100) (i + 1)).amplitude =
      (if i = 0 then (1 : ℚ) else 0) := by
    by_cases h0 : i = 0
    · simp [makePartial, h0]
    · have h1 : i + 1 ≠ 1 := by omega
      simp [makePartial, h0, h1]
  refine ⟨?_, ?_, ?_⟩
  · rw [Option.map_some', updateCurve_frequency, hfreq]
  · rw [Option.map_some', updateCurve_amplitude, hamp]
  · rw [Option.map_some', updateCurve_data, hfreq, hamp]
    rfl

/-- Witness for C2 at index 0 with the trivial kernel. -/
theorem C2_makeInitialState_witness :
    (makeInitialState sinZ).partials[0]?.map PartialRec.frequency =
      some ((26163 / 100 : ℚ) * ((0 : ℚ) + 1)) ∧
    (makeInitialState sinZ).partials[0]?.map PartialRec.amplitude =
      some (if 0 = 0 then (1 : ℚ) else 0) ∧
    (makeInitialState sinZ).partials[0]?.map PartialRec.data =
      some (calculateSineCurve sinZ ((26163 / 100 : ℚ) * ((0 : ℚ) + 1))
        (if 0 = 0 then (1 : ℚ) else 0) 650 44100) := by
  have h := (C2_makeInitialState sinZ).2.2.2.2.1 0 (by decide)
  simpa using h


/-- C3: CHANGE_FUNDAMENTAL_FREQUENCY(f) sets the fundamental to `f` and
replaces the partial at each index `i` with one of frequency `f * (i+1)`,
the old amplitude, and data resampled at the new frequency, preserving
order and length; the total curve is recomputed from the new partials and
the unchanged master gain.  In particular, after
CHANGE_FUNDAMENTAL_FREQUENCY(440) on the initial state the partials at
indices 0, 1 and 12 have frequencies 440, 880 and 5720. -/
theorem C3_changeFundamentalFrequency (sin2pi : ℚ → ℚ) (s : AppState) (f : ℚ) :
    ((changeFundamentalFrequency sin2pi s f).fundamentalFrequency = f ∧
     (changeFundamentalFrequency sin2pi s f).partials.length = s.partials.length ∧
     (∀ (i : ℕ) (q : PartialRec), s.partials[i]? = some q →
        (changeFundamentalFrequency sin2pi s f).partials[i]?.map PartialRec.frequency =
          some (f * ((i : ℚ) + 1)) ∧
        (changeFundamentalFrequency sin2pi s f).partials[i]?.map PartialRec.amplitude =
          some q.amplitude ∧
        (changeFundamentalFrequency sin2pi s f).partials[i]?.map PartialRec.data =
          some (calculateSineCurve sin2pi (f * ((i : ℚ) + 1)) q.amplitude 650 44100)) ∧
     (changeFundamentalFrequency sin2pi s f).masterGain = s.masterGain ∧
     (changeFundamentalFrequency sin2pi s f).totalCurve =
       combineCurves
         ((changeFundamentalFrequency sin2pi s f).partials.map fun p => p.data)
         s.masterGain) ∧
    ((changeFundamentalFrequency sin2pi (makeInitialState sin2pi) 440).partials[0]?.map
        PartialRec.frequency = some 440 ∧
     (changeFundamentalFrequency sin2pi (makeInitialState sin2pi) 440).partials[1]?.map
        PartialRec.frequency = some 880 ∧
     (changeFundamentalFrequency sin2pi (makeInitialState sin2pi) 440).partials[12]?.map
        PartialRec.frequency = some 5720) := by
  have key : ∀ (u : AppState) (g : ℚ) (i : ℕ) (q : PartialRec), u.partials[i]? = some q →
      (changeFundamentalFrequency sin2pi u g).partials[i]? =
        some (updateCurve sin2pi { q with frequency := g * ((i : ℚ) + 1) }) := by
    intro u g i q hq
    show (setPartialFrequencies sin2pi u.partials g)[i]? = _
    unfold setPartialFrequencies
    rw [mapIdxFrom_getElem?, hq, Option.map_some']
    simp
  refine ⟨⟨rfl, by simp [changeFundamentalFrequency, setPartialFrequencies], ?_, rfl, rfl⟩, ?_⟩
  · intro i q hq
    rw [key s f i q hq, Option.map_some', Option.map_some', Option.map_some']
    exact ⟨rfl, rfl, rfl⟩
  · have h0 := key (makeInitialState sin2pi) 440 0 _ (makeInitialState_getElem? sin2pi 0 (by norm_num [HARMONICS_COUNT]))
    have h1 := key (makeInitialState sin2pi) 440 1 _ (makeInitialState_getElem? sin2pi 1 (by norm_num [HARMONICS_COUNT]))
    have h12 := key (makeInitialState sin2pi) 440 12 _ (makeInitialState_getElem? sin2pi 12 (by norm_num [HARMONICS_COUNT]))
    rw [h0, h1, h12]
    refine ⟨?_, ?_, ?_⟩ <;> · rw [Option.map_some', updateCurve_frequency]; norm_num

/-- Witness for C3: the pointwise clause evaluated at the probe state's
index 0. -/
theorem C3_changeFundamentalFrequency_witness :
    (changeFundamentalFrequency sinZ probeState 3).partials[0]?.map PartialRec.frequency =
      some ((3 : ℚ) * ((0 : ℚ) + 1)) ∧
    (changeFundamentalFrequency sinZ probeState 3).partials[0]?.map PartialRec.amplitude =
      some (0 : ℚ) ∧
    (changeFundamentalFrequency sinZ probeState 3).partials[0]?.map PartialRec.data =
      some (calculateSineCurve sinZ ((3 : ℚ) * ((0 : ℚ) + 1)) 0 650 44100) := by
  have h := ((C3_changeFundamentalFrequency sinZ probeState 3).1.2.2.1) 0
    { frequency := 2, amplitude := 0, data := [] } rfl
  simpa using h

/-- C4: reducing any state with CHANGE_AMPLITUDE at a partial index outside
`[0, 13)` reports an `IndexOutOfRange` error (a reported error, not a
silent no-op and not silent corruption). -/
theorem C4_changeAmplitude_outOfRange (sin2pi : ℚ → ℚ) (s : AppState) (k : ℤ) (a : ℚ)
    (hk : k < 0 ∨ (HARMONICS_COUNT : ℤ) ≤ k) :
    harmonicsReducer sin2pi s (Action.changeAmplitude k a) =
      .error .IndexOutOfRange := by
  show changeAmplitude sin2pi s k a = _
  unfold changeAmplitude
  rw [if_neg]
  rintro ⟨h1, h2⟩
  have hc : (HARMONICS_COUNT : ℤ) = 13 := rfl
  rcases hk with h | h <;> omega

/-- Witness for C4 at index 13. -/
theorem C4_changeAmplitude_outOfRange_witness :
    harmonicsReducer sinZ probeState (Action.changeAmplitude 13 0) =
      .error .IndexOutOfRange :=
  C4_changeAmplitude_outOfRange sinZ probeState 13 0 (by decide)

/-- C5: CHANGE_AMPLITUDE at an in-range index `k` succeeds; it replaces
only the partial at `k` (new amplitude `a`, data resampled at the
unchanged frequency), leaves every other partial, `playing`, `masterGain`
and `fundamentalFrequency` unchanged, and recomputes the total curve over
all partials' data with the current master gain. -/
theorem C5_changeAmplitude_frame (sin2pi : ℚ → ℚ) (s : AppState) (k : ℕ) (a : ℚ)
    (hk : k < HARMONICS_COUNT) :
    ∃ t, changeAmplitude sin2pi s (k : ℤ) a = .ok t ∧
      t.playing = s.playing ∧
      t.masterGain = s.masterGain ∧
      t.fundamentalFrequency = s.fundamentalFrequency ∧
      t.partials.length = s.partials.length ∧
      t.partials[k]? = (s.partials[k]?).map
        (fun q => changeAmplitudeForPartial sin2pi q a) ∧
      (∀ j : ℕ, j ≠ k → t.partials[j]? = s.partials[j]?) ∧
      (∀ q : PartialRec, s.partials[k]? = some q →
        (changeAmplitudeForPartial sin2pi q a).frequency = q.frequency ∧
        (changeAmplitudeForPartial sin2pi q a).amplitude = a ∧
        (changeAmplitudeForPartial sin2pi q a).data =
          calculateSineCurve sin2pi q.frequency a 650 44100) ∧
      t.totalCurve = combineCurves (t.partials.map fun p => p.data) t.masterGain := by
  refine ⟨updateTotalCurve
    { s with
        partials := mapIdxFrom
          (fun i p =>
            if (i : ℤ) = (k : ℤ) then changeAmplitudeForPartial sin2pi p a else p)
          0 s.partials },
    ?_, rfl, rfl, rfl, by simp [mapIdxFrom_length], ?_, ?_, ?_, rfl⟩
  · unfold changeAmplitude
    rw [if_pos ⟨Int.natCast_nonneg k, by exact_mod_cast hk⟩]
  · show (mapIdxFrom _ 0 s.partials)[k]? = _
    rw [mapIdxFrom_getElem?]
    simp
  · intro j hj
    show (mapIdxFrom _ 0 s.partials)[j]? = _
    rw [mapIdxFrom_getElem?]
    simp [hj]
  · intro q _
    exact ⟨rfl, rfl, rfl⟩

/-- Witness for C5 at the probe state, index 2. -/
theorem C5_changeAmplitude_frame_witness :
    ∃ t, changeAmplitude sinZ probeState (2 : ℤ) (1 / 2) = .ok t ∧
      t.playing = probeState.playing ∧
      t.masterGain = probeState.masterGain ∧
      t.fundamentalFrequency = probeState.fundamentalFrequency ∧
      t.partials.length = probeState.partials.length ∧
      t.partials[2]? = (probeState.partials[2]?).map
        (fun q => changeAmplitudeForPartial sinZ q (1 / 2)) ∧
      (∀ j : ℕ, j ≠ 2 → t.partials[j]? = probeState.partials[j]?) ∧
      (∀ q : PartialRec, probeState.partials[2]? = some q →
        (changeAmplitudeForPartial sinZ q (1 / 2)).frequency = q.frequency ∧
        (changeAmplitudeForPartial sinZ q (1 / 2)).amplitude = 1 / 2 ∧
        (changeAmplitudeForPartial sinZ q (1 / 2)).data =
          calculateSineCurve sinZ q.frequency (1 / 2) 650 44100) ∧
      t.totalCurve = combineCurves (t.partials.map fun p => p.data) t.masterGain :=
  C5_changeAmplitude_frame sinZ probeState 2 (1 / 2) (by decide)


/-- Rescaling lemma for the combiner: changing only the gain scales every
sample by the ratio of the gains. -/
theorem combineCurves_rescale (curves : List Curve) (g g0 : ℚ) (hg0 : g0 ≠ 0)
    (i : ℕ) (x : ℚ) (hx : (combineCurves curves g0)[i]? = some x) :
    (combineCurves curves g)[i]? = some ((g / g0) * x) := by
  cases curves with
  | nil => simp [combineCurves] at hx
  | cons c cs =>
    unfold combineCurves at hx ⊢
    rw [List.getElem?_map] at hx ⊢
    cases hr : (List.range c.length)[i]? with
    | none => rw [hr] at hx; simp at hx
    | some j =>
      rw [hr] at hx
      rw [Option.map_some', Option.some_inj] at hx ⊢
      rw [← hx]
      field_simp
      ring

/-- C6: CHANGE_MASTER_GAIN(g) sets the master gain to `g`, leaves the
partials (frequency, amplitude, data), `playing` and the fundamental
unchanged, and recomputes the total curve by combining the existing
partial data with the new gain; relative to the unscaled partial sum,
each sample scales by the factor `g / previousGain`. -/
theorem C6_changeMasterGain (sin2pi : ℚ → ℚ) (s : AppState) (g : ℚ) :
    harmonicsReducer sin2pi s (Action.changeMasterGain g) = .ok (changeMasterGain s g) ∧
    (changeMasterGain s g).masterGain = g ∧
    (changeMasterGain s g).partials = s.partials ∧
    (changeMasterGain s g).playing = s.playing ∧
    (changeMasterGain s g).fundamentalFrequency = s.fundamentalFrequency ∧
    (changeMasterGain s g).totalCurve =
      combineCurves (s.partials.map fun p => p.data) g ∧
    (s.masterGain ≠ 0 →
      ∀ (i : ℕ) (x : ℚ),
        (combineCurves (s.partials.map fun p => p.data) s.masterGain)[i]? = some x →
        (changeMasterGain s g).totalCurve[i]? = some ((g / s.masterGain) * x)) := by
  refine ⟨rfl, rfl, rfl, rfl, rfl, rfl, ?_⟩
  intro hg0 i x hx
  show (combineCurves (s.partials.map fun p => p.data) g)[i]? = _
  exact combineCurves_rescale (s.partials.map fun p => p.data) g s.masterGain hg0 i x hx

/-- Witness for C6 on a one-sample state with previous gain 1 and new gain 3. -/
theorem C6_changeMasterGain_witness :
    (combineCurves ((AppState.partials
        { playing := false, masterGain := 1, fundamentalFrequency := 2
          partials := [{ frequency := 2, amplitude := 1, data := [5] }]
          totalCurve := [5] }).map fun p => p.data) 1)[0]? = some 5 ∧
    (changeMasterGain
        { playing := false, masterGain := 1, fundamentalFrequency := 2
          partials := [{ frequency := 2, amplitude := 1, data := [5] }]
          totalCurve := [5] } 3).totalCurve[0]? = some (((3 : ℚ) / 1) * 5) := by
  have hbase : (combineCurves (List.map (fun p => p.data)
      [({ frequency := 2, amplitude := 1, data := [5] } : PartialRec)]) (1 : ℚ))[0]? =
      some (5 : ℚ) := by
    simp [combineCurves]
  constructor
  · exact hbase
  · exact (C6_changeMasterGain sinZ
      { playing := false, masterGain := 1, fundamentalFrequency := 2
        partials := [{ frequency := 2, amplitude := 1, data := [5] }]
        totalCurve := [5] } 3).2.2.2.2.2.2 (by norm_num) 0 5 hbase

/-- C7: START sets `playing` to true and STOP sets it to false, and
neither changes any other field of the state; no curve is recomputed. -/
theorem C7_start_stop (sin2pi : ℚ → ℚ) (s : AppState) :
    harmonicsReducer sin2pi s Action.start = .ok (setPlayState s true) ∧
    harmonicsReducer sin2pi s Action.stop = .ok (setPlayState s false) ∧
    ∀ b : Bool, (setPlayState s b).playing = b ∧
      (setPlayState s b).masterGain = s.masterGain ∧
      (setPlayState s b).fundamentalFrequency = s.fundamentalFrequency ∧
      (setPlayState s b).partials = s.partials ∧
      (setPlayState s b).totalCurve = s.totalCurve :=
  ⟨rfl, rfl, fun _ => ⟨rfl, rfl, rfl, rfl, rfl⟩⟩

/-- Whether an action's kind is one of the five the reducer dispatches on. -/
def Action.recognizedKind : Action → Bool
  | .start => true
  | .stop => true
  | .changeAmplitude _ _ => true
  | .changeMasterGain _ => true
  | .changeFundamentalFrequency _ => true
  | _ => false

/-- C8: for every action whose kind is none of START, STOP,
CHANGE_AMPLITUDE, CHANGE_FUNDAMENTAL_FREQUENCY, CHANGE_MASTER_GAIN, the
reducer returns the state unchanged and never signals an error. -/
theorem C8_unrecognized_identity (sin2pi : ℚ → ℚ) (s : AppState) (a : Action)
    (h : a.recognizedKind = false) : harmonicsReducer sin2pi s a = .ok s := by
  cases a with
  | switchToPreset preset => rfl
  | unknown tag => rfl
  | start => simp [Action.recognizedKind] at h
  | stop => simp [Action.recognizedKind] at h
  | changeAmplitude k amp => simp [Action.recognizedKind] at h
  | changeMasterGain g => simp [Action.recognizedKind] at h
  | changeFundamentalFrequency f => simp [Action.recognizedKind] at h

/-- Witness for C8 with an unknown action tag. -/
theorem C8_unrecognized_identity_witness :
    harmonicsReducer sinZ probeState (Action.unknown 7) = .ok probeState :=
  C8_unrecognized_identity sinZ probeState (Action.unknown 7) rfl

/-- C9: on a reachable state, CHANGE_AMPLITUDE with the partial's current
amplitude yields a state whose total curve and partial-`k` data are equal
to the prior state's (exact equality over ℚ, hence pointwise equal within
any floating tolerance). -/
theorem C9_changeAmplitude_idempotent (sin2pi : ℚ → ℚ) (s : AppState) (k : ℕ) (a : ℚ)
    (q : PartialRec) (hreach : Reachable sin2pi s) (hq : s.partials[k]? = some q)
    (ha : a = q.amplitude) :
    ∃ t, changeAmplitude sin2pi s (k : ℤ) a = .ok t ∧
      t.totalCurve = s.totalCurve ∧ t.partials[k]? = s.partials[k]? := by
  have hcons := reachable_consistent sin2pi s hreach
  have hlen := reachable_length sin2pi s hreach
  have hk : k < HARMONICS_COUNT := by
    have h1 := (List.getElem?_eq_some.mp hq).1
    omega
  have hfix : changeAmplitudeForPartial sin2pi q a = q := by
    obtain ⟨h1, h2⟩ := hcons.1 k q hq
    subst ha
    cases q with
    | mk qf qa qd =>
      simp only [changeAmplitudeForPartial, updateCurve] at h2 ⊢
      simp at h2 ⊢
      exact h2.symm
  have hlist : mapIdxFrom
      (fun i p => if (i : ℤ) = (k : ℤ) then changeAmplitudeForPartial sin2pi p a else p)
      0 s.partials = s.partials := by
    apply List.ext_getElem?
    intro i
    rw [mapIdxFrom_getElem?]
    by_cases hik : i = k
    · subst hik
      rw [hq, Option.map_some']
      simp [hfix]
    · simp [hik]
  refine ⟨updateTotalCurve
    { s with
        partials := mapIdxFrom
          (fun i p =>
            if (i : ℤ) = (k : ℤ) then changeAmplitudeForPartial sin2pi p a else p)
          0 s.partials },
    ?_, ?_, ?_⟩
  · unfold changeAmplitude
    rw [if_pos ⟨Int.natCast_nonneg k, by exact_mod_cast hk⟩]
  · show combineCurves ((mapIdxFrom
        (fun i p =>
          if (i : ℤ) = (k : ℤ) then changeAmplitudeForPartial sin2pi p a else p)
        0 s.partials).map fun p => p.data) s.masterGain = s.totalCurve
    rw [hlist, ← hcons.2]
  · show (mapIdxFrom
        (fun i p =>
          if (i : ℤ) = (k : ℤ) then changeAmplitudeForPartial sin2pi p a else p)
        0 s.partials)[k]? = s.partials[k]?
    rw [hlist]

/-- Witness for C9 at the initial state, partial 0, amplitude 1. -/
theorem C9_changeAmplitude_idempotent_witness :
    ∃ t, changeAmplitude sinZ (makeInitialState sinZ) ((0 : ℕ) : ℤ) 1 = .ok t ∧
      t.totalCurve = (makeInitialState sinZ).totalCurve ∧
      t.partials[(0 : ℕ)]? = (makeInitialState sinZ).partials[(0 : ℕ)]? :=
  C9_changeAmplitude_idempotent sinZ (makeInitialState sinZ) 0 1
    (updateCurve sinZ (makePartial (26163 / 100) 1)) Reachable.init rfl rfl

/-- C10: the code defines the additional action kind SWITCH_TO_PRESET, but
the reducer has no case for it: it falls through to the default branch and
returns the state unchanged. -/
theorem C10_switchToPreset_default (sin2pi : ℚ → ℚ) (s : AppState) (preset : ℕ) :
    harmonicsReducer sin2pi s (Action.switchToPreset preset) = .ok s := rfl

end Harmonics
